import Mathlib

/-!
Verification of the `tailr` offset-resolution and suffix-emission engine
(`src/tailr/src/lib.rs`), shallowly embedded in Lean 4.

File contents are modelled as `List Nat` (byte values), tokens as `List Char`,
machine integers as `Int` with explicit signed-64-bit range checks where the
Rust code performs an `i64` conversion, and `u64` results as `Nat`.
Loops are embedded as fuel-indexed structural recursions where the fuel is
the input length, which each loop iteration strictly decreases.
-/

namespace Tailr

/-- Signed 64-bit range bounds, used where the Rust code converts to `i64`. -/
def i64Min : Int := -(2 ^ 63)

def i64Max : Int := 2 ^ 63 - 1

/-- The `TakeValue` enum of the source: `PlusZero` is the "+0" sentinel,
`TakeNum n` carries a parsed signed 64-bit count. -/
inductive TakeValue where
  | PlusZero : TakeValue
  | TakeNum : Int → TakeValue
deriving DecidableEq

open TakeValue

deriving instance DecidableEq for Except

/-- Regex capture of `^([+-])?(\d+)$`: an explicit leading sign is split off,
otherwise the default sign "-" is used (`caps.get(1).map_or("-", ...)`). -/
def split_sign : List Char → Char × List Char
  | [] => ('-', [])
  | c :: rest => if c = '+' ∨ c = '-' then (c, rest) else ('-', c :: rest)

/-- Numeric value of a digit string, as produced by integer parsing of the
digit characters. -/
def digits_to_nat (ds : List Char) : Nat :=
  ds.foldl (fun acc c => acc * 10 + (c.toNat - '0'.toNat)) 0

/-- Whether a token matches the regex `^([+-])?(\d+)$`: after splitting an
optional sign, one or more decimal digits must remain. -/
def matches_num_re (val : List Char) : Prop :=
  (split_sign val).2 ≠ [] ∧ (split_sign val).2.all Char.isDigit

instance (val : List Char) : Decidable (matches_num_re val) := by
  unfold matches_num_re; infer_instance

/-- `parse_num` from the source: match the token against the sign+digits
regex, rebuild the signed numeral (default sign "-"), convert it to `i64`
(failing with the original token if out of range), and map `+0` to
`PlusZero`, everything else to `TakeNum`. -/
def parse_num (val : List Char) : Except (List Char) TakeValue :=
  if matches_num_re val then
    let sign := (split_sign val).1
    let v : Int := if sign = '+' then (digits_to_nat (split_sign val).2 : Int)
                   else -(digits_to_nat (split_sign val).2 : Int)
    if i64Min ≤ v ∧ v ≤ i64Max then
      if sign = '+' ∧ v = 0 then .ok PlusZero else .ok (TakeNum v)
    else .error val
  else .error val

/-- `get_start_index` from the source: resolve a `TakeValue` against a total
count into an optional 0-based start position. The `start as u64` cast is
modelled by `Int.toNat`, applied only on the non-negative branch. -/
def get_start_index (take_val : TakeValue) (total : Int) : Option Nat :=
  match take_val with
  | PlusZero => if total > 0 then some 0 else none
  | TakeNum num =>
      if num = 0 ∨ total = 0 ∨ num > total then none
      else
        let start : Int := if num < 0 then total + num else num - 1
        some (if start < 0 then 0 else start.toNat)

/-- Addition that fails instead of leaving the signed 64-bit range,
used to make the absence of `i64` overflow in the resolver explicit. -/
def checked_add (a b : Int) : Option Int :=
  if i64Min ≤ a + b ∧ a + b ≤ i64Max then some (a + b) else none

/-- Subtraction that fails instead of leaving the signed 64-bit range. -/
def checked_sub (a b : Int) : Option Int :=
  if i64Min ≤ a - b ∧ a - b ≤ i64Max then some (a - b) else none

/-- The `start as u64` cast, failing on a negative operand (where the Rust
`as` cast would wrap instead of preserving the value). -/
def cast_to_u64 (x : Int) : Option Nat :=
  if 0 ≤ x then some x.toNat else none

/-- `get_start_index` with every arithmetic step routed through checked
signed-64-bit operations: `none` signals that some step overflowed. -/
def get_start_index_checked (take_val : TakeValue) (total : Int) :
    Option (Option Nat) :=
  match take_val with
  | PlusZero => if total > 0 then some (some 0) else some none
  | TakeNum num =>
      if num = 0 ∨ total = 0 ∨ num > total then some none
      else
        match (if num < 0 then checked_add total num else checked_sub num 1) with
        | none => none
        | some start =>
            if start < 0 then some (some 0)
            else
              match cast_to_u64 start with
              | none => none
              | some u => some (some u)

/-- Length of the chunk produced by `read_until(b'\n')`: up to and including
the first newline byte, or the whole rest when no newline remains. -/
def read_until_len : List Nat → Nat
  | [] => 0
  | b :: rest => if b = 10 then 1 else 1 + read_until_len rest

/-- The `loop` of `count_lines_bytes`, fuel-indexed: each iteration reads one
`read_until` chunk, bumps the line count and adds the chunk length to the
byte count, until a read of zero bytes ends the loop. -/
def count_lines_bytes_loop : Nat → List Nat → Nat × Nat
  | _, [] => (0, 0)
  | 0, _ :: _ => (0, 0)
  | fuel + 1, b :: rest =>
      let k := read_until_len (b :: rest)
      let p := count_lines_bytes_loop fuel ((b :: rest).drop k)
      (p.1 + 1, p.2 + k)

/-- `count_lines_bytes` from the source, on the content of a readable file:
returns `(num_lines, num_bytes)`. The fuel `content.length` is always
sufficient because every chunk is non-empty. -/
def count_lines_bytes (content : List Nat) : Nat × Nat :=
  count_lines_bytes_loop content.length content

/-- Whether a byte is a UTF-8 continuation byte (`0x80..=0xBF`). -/
def is_cont_byte (b : Nat) : Bool := 0x80 ≤ b && b ≤ 0xBF

/-- One step of UTF-8 validation, as performed by Rust's `str` validation
underlying `String::from_utf8_lossy`: on a non-empty input, returns
`(true, k)` when a well-formed scalar sequence of length `k` starts here, and
`(false, e)` where `e ≥ 1` is the length of the maximal valid prefix of an
ill-formed sequence (the bytes replaced by one replacement character). -/
def utf8_step : List Nat → Bool × Nat
  | [] => (true, 1)
  | b :: rest =>
      if b < 0x80 then (true, 1)
      else if b < 0xC2 then (false, 1)
      else if b ≤ 0xDF then
        match rest with
        | r1 :: _ => if is_cont_byte r1 then (true, 2) else (false, 1)
        | [] => (false, 1)
      else if b ≤ 0xEF then
        let lo := if b = 0xE0 then 0xA0 else 0x80
        let hi := if b = 0xED then 0x9F else 0xBF
        match rest with
        | r1 :: rest2 =>
            if lo ≤ r1 && r1 ≤ hi then
              match rest2 with
              | r2 :: _ => if is_cont_byte r2 then (true, 3) else (false, 2)
              | [] => (false, 2)
            else (false, 1)
        | [] => (false, 1)
      else if b ≤ 0xF4 then
        let lo := if b = 0xF0 then 0x90 else 0x80
        let hi := if b = 0xF4 then 0x8F else 0xBF
        match rest with
        | r1 :: rest2 =>
            if lo ≤ r1 && r1 ≤ hi then
              match rest2 with
              | r2 :: rest3 =>
                  if is_cont_byte r2 then
                    match rest3 with
                    | r3 :: _ => if is_cont_byte r3 then (true, 4) else (false, 3)
                    | [] => (false, 3)
                  else (false, 2)
              | [] => (false, 2)
            else (false, 1)
        | [] => (false, 1)
      else (false, 1)

/-- Fuel-indexed body of `String::from_utf8_lossy`, at the byte level:
well-formed sequences are copied verbatim; each maximal ill-formed subpart is
replaced by the UTF-8 encoding `EF BF BD` of U+FFFD. -/
def from_utf8_lossy_loop : Nat → List Nat → List Nat
  | _, [] => []
  | 0, _ :: _ => []
  | fuel + 1, b :: rest =>
      let s := utf8_step (b :: rest)
      if s.1 then (b :: rest).take s.2 ++ from_utf8_lossy_loop fuel ((b :: rest).drop s.2)
      else 0xEF :: 0xBF :: 0xBD :: from_utf8_lossy_loop fuel ((b :: rest).drop s.2)

/-- `String::from_utf8_lossy` on a byte list, yielding the bytes actually
written by `print!`. -/
def from_utf8_lossy (bs : List Nat) : List Nat :=
  from_utf8_lossy_loop bs.length bs

/-- Fuel-indexed UTF-8 validity check: every step of `utf8_step` succeeds. -/
def valid_utf8_loop : Nat → List Nat → Bool
  | _, [] => true
  | 0, _ :: _ => false
  | fuel + 1, b :: rest =>
      let s := utf8_step (b :: rest)
      s.1 && valid_utf8_loop fuel ((b :: rest).drop s.2)

/-- A byte list is valid UTF-8 when validation decomposes it entirely into
well-formed scalar sequences. -/
def valid_utf8 (bs : List Nat) : Bool :=
  valid_utf8_loop bs.length bs

/-- `print_bytes` from the source: resolve the start index, seek there, read
to the end, and print the buffer through `String::from_utf8_lossy` when it is
non-empty. Returns the bytes written to standard output. -/
def print_bytes (content : List Nat) (num_bytes : TakeValue) (total_bytes : Int) :
    List Nat :=
  match get_start_index num_bytes total_bytes with
  | none => []
  | some start =>
      let buffer := content.drop start
      if buffer = [] then [] else from_utf8_lossy buffer

/-- The `loop` of `print_lines`, fuel-indexed: read one `read_until` chunk
per iteration and print it through `String::from_utf8_lossy` once the running
line index has reached `start`. -/
def print_lines_loop : Nat → List Nat → Nat → Nat → List Nat
  | _, [], _, _ => []
  | 0, _ :: _, _, _ => []
  | fuel + 1, b :: rest, line_num, start =>
      let k := read_until_len (b :: rest)
      (if start ≤ line_num then from_utf8_lossy ((b :: rest).take k) else []) ++
        print_lines_loop fuel ((b :: rest).drop k) (line_num + 1) start

/-- `print_lines` from the source: resolve the start index and, when it
resolves, emit every line whose 0-based index is at least the start. -/
def print_lines (content : List Nat) (num_lines : TakeValue) (total_lines : Int) :
    List Nat :=
  match get_start_index num_lines total_lines with
  | none => []
  | some start => print_lines_loop content.length content 0 start

/-- State of a named file in the modelled file system: either `File::open`
fails, or the file opens on some byte content, with `read_err` recording
whether reads of the opened file fail mid-file (after a successful open). -/
inductive FsFile where
  | unopenable : FsFile
  | readable : List Nat → Bool → FsFile
deriving DecidableEq

/-- The `Config` struct of the source (the CLI-parsing fields that `run`
consumes). -/
structure Config where
  files : List String
  lines : TakeValue
  bytes : Option TakeValue
  quiet : Bool

/-- One write to standard output: either a `println!` multi-file header
(`"==> name <=="`, preceded by a blank line for every file after the first),
or bytes emitted by `print_bytes` / `print_lines`. -/
inductive OutChunk where
  | header : Bool → String → OutChunk
  | bytes : List Nat → OutChunk
deriving DecidableEq

/-- Observable effects of `run`: standard output chunks in order, the
`eprintln!` diagnostics (the filenames whose open failed), and the files on
which `count_lines_bytes` was invoked (the Counter's forward scans). -/
structure RunState where
  out : List OutChunk
  errs : List String
  scans : List String
deriving DecidableEq

/-- `count_lines_bytes` at the file-system level: opening the file can fail,
and a mid-file read failure aborts the scan with an I/O error. -/
def count_lines_bytes_file (f : FsFile) : Except Unit (Nat × Nat) :=
  match f with
  | .unopenable => .error ()
  | .readable content read_err =>
      if read_err then .error () else .ok (count_lines_bytes content)

/-- The per-file loop of `run`. An open failure is caught and reported to
the diagnostic channel, and the loop continues; after a successful open the
header is printed, then `count_lines_bytes` runs (its `?` propagates a read
failure, ending the whole loop with the `false` flag), then the byte or line
emitter runs depending on `config.bytes`. -/
def run_loop (fs : String → FsFile) (config : Config) (num_files : Nat) :
    Nat → List String → RunState × Bool
  | _, [] => (⟨[], [], []⟩, true)
  | file_num, filename :: rest =>
      match fs filename with
      | .unopenable =>
          let r := run_loop fs config num_files (file_num + 1) rest
          (⟨r.1.out, filename :: r.1.errs, r.1.scans⟩, r.2)
      | .readable content read_err =>
          let hdr : List OutChunk :=
            if !config.quiet && num_files > 1 then
              [.header (file_num > 0) filename]
            else []
          if read_err then (⟨hdr, [], [filename]⟩, false)
          else
            let lb := count_lines_bytes content
            let body : List Nat :=
              match config.bytes with
              | some num_bytes => print_bytes content num_bytes (lb.2 : Int)
              | none => print_lines content config.lines (lb.1 : Int)
            let r := run_loop fs config num_files (file_num + 1) rest
            (⟨hdr ++ .bytes body :: r.1.out, r.1.errs, filename :: r.1.scans⟩, r.2)

/-- `run` from the source, over a modelled file system: processes the
configured files in order; the `Bool` is `true` exactly when `run` returns
`Ok(())` instead of propagating a mid-file I/O error. -/
def run (fs : String → FsFile) (config : Config) : RunState × Bool :=
  run_loop fs config config.files.length 0 config.files

/-- C1: the start-index resolver implements exactly the spec's decision
table. With `PlusZero` for `RelativeZero` and `TakeNum` for `Signed`: for
every `total ≥ 0`, `resolve(PlusZero, 0) = none`; `resolve(PlusZero, total) =
some 0` when `total > 0`; `resolve(TakeNum 0, total) = none`; for `n > 0`,
`none` when `total = 0` or `n > total`, and `some (n-1)` when `0 < n ≤
total`; for `n < 0`, `none` when `total = 0`, `some 0` when `total + n < 0`
(and `total ≠ 0`), and `some (total + n)` when `total + n ≥ 0` and
`total > 0`. -/
theorem get_start_index_takeNum_eq (num total : Int) :
    get_start_index (TakeNum num) total =
      if num = 0 ∨ total = 0 ∨ num > total then none
      else if num < 0 then
        (if total + num < 0 then some 0 else some (total + num).toNat)
      else some (num - 1).toNat := by
  simp only [get_start_index]
  by_cases hg : num = 0 ∨ total = 0 ∨ num > total
  · rw [if_pos hg, if_pos hg]
  · rw [if_neg hg, if_neg hg]
    by_cases hneg : num < 0
    · simp only [if_pos hneg]
      by_cases hlt : total + num < 0
      · rw [if_pos hlt, if_pos hlt]
      · rw [if_neg hlt, if_neg hlt]
    · simp only [if_neg hneg]
      rw [if_neg (by omega : ¬ num - 1 < 0)]

theorem get_start_index_decision_table (n total : Int) (htot : 0 ≤ total) :
    get_start_index PlusZero 0 = none ∧
    (0 < total → get_start_index PlusZero total = some 0) ∧
    get_start_index (TakeNum 0) total = none ∧
    (0 < n →
      ((total = 0 ∨ total < n) → get_start_index (TakeNum n) total = none) ∧
      (n ≤ total → get_start_index (TakeNum n) total = some (n - 1).toNat)) ∧
    (n < 0 →
      (total = 0 → get_start_index (TakeNum n) total = none) ∧
      (total ≠ 0 → total + n < 0 → get_start_index (TakeNum n) total = some 0) ∧
      (0 ≤ total + n → 0 < total →
        get_start_index (TakeNum n) total = some (total + n).toNat)) := by
  refine ⟨by simp [get_start_index], fun h => by simp [get_start_index, h],
    by simp [get_start_index], fun hn => ⟨fun hc => ?_, fun hle => ?_⟩,
    fun hn => ⟨fun hc => ?_, fun h0 hneg => ?_, fun hge hpos => ?_⟩⟩
  · rw [get_start_index_takeNum_eq, if_pos (by omega)]
  · rw [get_start_index_takeNum_eq, if_neg (by omega), if_neg (by omega)]
  · rw [get_start_index_takeNum_eq, if_pos (by omega)]
  · rw [get_start_index_takeNum_eq, if_neg (by omega), if_pos hn, if_pos hneg]
  · rw [get_start_index_takeNum_eq, if_neg (by omega), if_pos hn,
      if_neg (by omega)]

/-- Witness for C1: the decision table instantiated at `n = -12`,
`total = 10` selects the clamped row and yields start index 0. -/
theorem get_start_index_decision_table_witness :
    0 ≤ (10 : Int) ∧ get_start_index (TakeNum (-12)) 10 = some 0 :=
  ⟨by decide,
    ((get_start_index_decision_table (-12) 10 (by decide)).2.2.2.2
      (by decide)).2.1 (by decide) (by decide)⟩

/-- C8: resolver invariant — whenever `get_start_index` yields `some i` for
a non-negative total, the file is non-empty (`total > 0`) and `i` is a valid
0-based position strictly inside it (`i < total`). -/
theorem get_start_index_in_bounds (take_val : TakeValue) (total : Int) (i : Nat)
    (htot : 0 ≤ total) (h : get_start_index take_val total = some i) :
    0 < total ∧ (i : Int) < total := by
  cases take_val with
  | PlusZero =>
      simp only [get_start_index] at h
      by_cases hp : total > 0
      · rw [if_pos hp] at h
        cases h
        exact ⟨hp, by exact_mod_cast hp⟩
      · rw [if_neg hp] at h
        cases h
  | TakeNum num =>
      simp only [get_start_index] at h
      by_cases hg : num = 0 ∨ total = 0 ∨ num > total
      · rw [if_pos hg] at h
        cases h
      · rw [if_neg hg] at h
        have hi : i = if (if num < 0 then total + num else num - 1) < 0 then 0
            else (if num < 0 then total + num else num - 1).toNat := by
          cases h
          rfl
        by_cases hneg : num < 0 <;> simp only [hneg, if_true, if_false] at hi <;>
          split at hi <;> omega

/-- Witness for C8: resolving `TakeNum 3` against total 5 yields index 2,
which the invariant certifies to lie strictly inside the file. -/
theorem get_start_index_in_bounds_witness :
    0 ≤ (5 : Int) ∧ get_start_index (TakeNum 3) 5 = some 2 ∧
      (0 < (5 : Int) ∧ ((2 : Nat) : Int) < 5) :=
  ⟨by decide, by decide,
    get_start_index_in_bounds (TakeNum 3) 5 2 (by decide) (by decide)⟩

/-- C9: absence of signed-64-bit overflow in the resolver — for every `n` in
the `i64` range (including the minimum) and every `total` with
`0 ≤ total ≤ i64Max`, the overflow-checked resolver never reports an
overflow and agrees with the unchecked one: `total + n` is only computed
when `n < 0`, `num - 1` only when `n > 0`, and the `u64` cast only on a
non-negative value. -/
theorem get_start_index_no_overflow (n total : Int)
    (hn1 : i64Min ≤ n) (hn2 : n ≤ i64Max) (ht1 : 0 ≤ total) (ht2 : total ≤ i64Max) :
    get_start_index_checked (TakeNum n) total =
      some (get_start_index (TakeNum n) total) := by
  rw [get_start_index_takeNum_eq]
  simp only [get_start_index_checked, i64Min, i64Max] at *
  by_cases hg : n = 0 ∨ total = 0 ∨ n > total
  · rw [if_pos hg, if_pos hg]
  · rw [if_neg hg, if_neg hg]
    by_cases hneg : n < 0
    · have hadd : checked_add total n = some (total + n) := by
        simp only [checked_add, i64Min, i64Max]
        rw [if_pos (by omega)]
      simp only [if_pos hneg, hadd]
      by_cases hlt : total + n < 0
      · rw [if_pos hlt, if_pos hlt]
      · have hcast : cast_to_u64 (total + n) = some (total + n).toNat := by
          simp only [cast_to_u64]
          rw [if_pos (by omega)]
        simp only [if_neg hlt, hcast]
    · have hsub : checked_sub n 1 = some (n - 1) := by
        simp only [checked_sub, i64Min, i64Max]
        rw [if_pos (by omega)]
      simp only [if_neg hneg, hsub]
      have hlt : ¬ n - 1 < 0 := by omega
      have hcast : cast_to_u64 (n - 1) = some (n - 1).toNat := by
        simp only [cast_to_u64]
        rw [if_pos (by omega)]
      simp only [if_neg hlt, hcast]

/-- Witness for C9: at the extreme `n = i64Min` and `total = 3`, the checked
resolver reports no overflow and clamps to start index 0. -/
theorem get_start_index_no_overflow_witness :
    i64Min ≤ i64Min ∧ i64Min ≤ i64Max ∧ 0 ≤ (3 : Int) ∧ (3 : Int) ≤ i64Max ∧
      get_start_index_checked (TakeNum i64Min) 3 =
        some (get_start_index (TakeNum i64Min) 3) :=
  ⟨le_refl _, by decide, by decide, by decide,
    get_start_index_no_overflow i64Min 3 (le_refl _) (by decide) (by decide) (by decide)⟩

theorem parse_num_of_not_matches (val : List Char) (h : ¬ matches_num_re val) :
    parse_num val = .error val := by
  simp only [parse_num]
  rw [if_neg h]

theorem parse_num_of_matches (val : List Char) (h : matches_num_re val) :
    parse_num val =
      (if i64Min ≤ (if (split_sign val).1 = '+' then
            (digits_to_nat (split_sign val).2 : Int)
          else -(digits_to_nat (split_sign val).2 : Int)) ∧
          (if (split_sign val).1 = '+' then
            (digits_to_nat (split_sign val).2 : Int)
          else -(digits_to_nat (split_sign val).2 : Int)) ≤ i64Max then
        if (split_sign val).1 = '+' ∧
            (if (split_sign val).1 = '+' then
              (digits_to_nat (split_sign val).2 : Int)
            else -(digits_to_nat (split_sign val).2 : Int)) = 0 then
          .ok PlusZero
        else
          .ok (TakeNum (if (split_sign val).1 = '+' then
            (digits_to_nat (split_sign val).2 : Int)
          else -(digits_to_nat (split_sign val).2 : Int)))
      else .error val) := by
  simp only [parse_num]
  rw [if_pos h]

theorem parse_num_plus_sign (val : List Char) (h : matches_num_re val)
    (hs : (split_sign val).1 = '+') :
    parse_num val =
      if (digits_to_nat (split_sign val).2 : Int) ≤ 2 ^ 63 - 1 then
        if (digits_to_nat (split_sign val).2 : Int) = 0 then .ok PlusZero
        else .ok (TakeNum (digits_to_nat (split_sign val).2 : Int))
      else .error val := by
  rw [parse_num_of_matches val h, hs, if_pos (rfl : ('+' : Char) = '+')]
  simp only [i64Min, i64Max]
  have hnn : (0 : Int) ≤ (digits_to_nat (split_sign val).2 : Int) :=
    Int.natCast_nonneg _
  by_cases hb : (digits_to_nat (split_sign val).2 : Int) ≤ 2 ^ 63 - 1
  · have hr : -(2 ^ 63 : Int) ≤ (digits_to_nat (split_sign val).2 : Int) ∧
        (digits_to_nat (split_sign val).2 : Int) ≤ 2 ^ 63 - 1 := by
      constructor <;> omega
    rw [if_pos hr, if_pos hb]
    simp only [true_and]
  · have hr : ¬ (-(2 ^ 63 : Int) ≤ (digits_to_nat (split_sign val).2 : Int) ∧
        (digits_to_nat (split_sign val).2 : Int) ≤ 2 ^ 63 - 1) := by omega
    rw [if_neg hr, if_neg hb]

theorem parse_num_default_sign (val : List Char) (h : matches_num_re val)
    (hs : (split_sign val).1 ≠ '+') :
    parse_num val =
      if (digits_to_nat (split_sign val).2 : Int) ≤ 2 ^ 63 then
        .ok (TakeNum (-(digits_to_nat (split_sign val).2 : Int)))
      else .error val := by
  rw [parse_num_of_matches val h, if_neg hs]
  simp only [i64Min, i64Max]
  have hnn : (0 : Int) ≤ (digits_to_nat (split_sign val).2 : Int) :=
    Int.natCast_nonneg _
  by_cases hb : (digits_to_nat (split_sign val).2 : Int) ≤ 2 ^ 63
  · have hr : -(2 ^ 63 : Int) ≤ -(digits_to_nat (split_sign val).2 : Int) ∧
        -(digits_to_nat (split_sign val).2 : Int) ≤ 2 ^ 63 - 1 := by
      constructor <;> omega
    rw [if_pos hr, if_neg (fun hc => hs hc.1), if_pos hb]
  · have hr : ¬ (-(2 ^ 63 : Int) ≤ -(digits_to_nat (split_sign val).2 : Int) ∧
        -(digits_to_nat (split_sign val).2 : Int) ≤ 2 ^ 63 - 1) := by omega
    rw [if_neg hr, if_neg hb]

/-- C5 (amended): the offset-spec parser follows the spec's mapping for every
grammar-matching token whose converted value fits in `i64`: a `'+'` sign with
magnitude 0 gives `PlusZero`; a `'+'` sign with magnitude `0 < N ≤ i64Max`
gives `TakeNum N`; no sign or a `'-'` sign with magnitude `N ≤ 2^63` gives
`TakeNum (-N)`; and every token not matching the optional-sign-then-digits
grammar fails with the offending token as the error. -/
theorem parse_num_grammar_table (val : List Char) :
    (¬ matches_num_re val → parse_num val = .error val) ∧
    (matches_num_re val →
      ((split_sign val).1 = '+' → (digits_to_nat (split_sign val).2 : Int) = 0 →
        parse_num val = .ok PlusZero) ∧
      ((split_sign val).1 = '+' → 0 < (digits_to_nat (split_sign val).2 : Int) →
        (digits_to_nat (split_sign val).2 : Int) ≤ i64Max →
        parse_num val = .ok (TakeNum (digits_to_nat (split_sign val).2 : Int))) ∧
      ((split_sign val).1 ≠ '+' → (digits_to_nat (split_sign val).2 : Int) ≤ 2 ^ 63 →
        parse_num val = .ok (TakeNum (-(digits_to_nat (split_sign val).2 : Int))))) := by
  refine ⟨parse_num_of_not_matches val, fun h => ⟨fun hs hm => ?_, fun hs h0 hm => ?_,
    fun hs hm => ?_⟩⟩
  · rw [parse_num_plus_sign val h hs, if_pos (by omega), if_pos hm]
  · simp only [i64Max] at hm
    rw [parse_num_plus_sign val h hs, if_pos hm, if_neg (by omega)]
  · rw [parse_num_default_sign val h hs, if_pos hm]

/-- Counterexample to C5 as stated: the token `"+9223372036854775808"`
matches the grammar with sign `'+'` and magnitude `2^63 > 0`, so the claim
maps it to `TakeNum (2^63)`, but the code rejects it with the offending
token as the error. -/
theorem parse_num_grammar_table_counterexample :
    matches_num_re "+9223372036854775808".data ∧
    (split_sign "+9223372036854775808".data).1 = '+' ∧
    (digits_to_nat (split_sign "+9223372036854775808".data).2 : Int) = 2 ^ 63 ∧
    (0 : Int) < 2 ^ 63 ∧
    parse_num "+9223372036854775808".data = .error "+9223372036854775808".data ∧
    parse_num "+9223372036854775808".data ≠ .ok (TakeNum (2 ^ 63)) := by
  refine ⟨by decide, by decide, by decide, by decide, by decide, by decide⟩

/-- Witness for C5 (amended): the table instantiated at the non-matching
token `"abc"` and at the matching token `"-5"`. -/
theorem parse_num_grammar_table_witness :
    ¬ matches_num_re "abc".data ∧ parse_num "abc".data = .error "abc".data ∧
    matches_num_re "-5".data ∧ parse_num "-5".data = .ok (TakeNum (-5)) :=
  ⟨by decide, (parse_num_grammar_table "abc".data).1 (by decide), by decide,
    ((parse_num_grammar_table "-5".data).2 (by decide)).2.2 (by decide) (by decide)⟩

/-- C3 (amended): a grammar-matching token whose magnitude lies beyond the
representable signed 64-bit range is not clamped: the parser fails, with the
offending token, exactly as for a malformed token (`'+'`-prefixed tokens of
magnitude above `i64Max`, bare or `'-'`-prefixed tokens of magnitude above
`2^63`). -/
theorem parse_num_overflow_fails (val : List Char) (h : matches_num_re val)
    (hbig : ((split_sign val).1 = '+' ∧
        i64Max < (digits_to_nat (split_sign val).2 : Int)) ∨
      ((split_sign val).1 ≠ '+' ∧
        2 ^ 63 < (digits_to_nat (split_sign val).2 : Int))) :
    parse_num val = .error val := by
  rcases hbig with ⟨hs, hm⟩ | ⟨hs, hm⟩
  · simp only [i64Max] at hm
    rw [parse_num_plus_sign val h hs, if_neg (by omega)]
  · rw [parse_num_default_sign val h hs, if_neg (by omega)]

/-- Counterexample to C3 as stated: the bare token `"9223372036854775809"`
(magnitude `2^63 + 1`, beyond the `i64` range) is claimed to parse as the
clamped minimum `TakeNum i64Min`, but the code fails with the offending
token. -/
theorem parse_num_overflow_fails_counterexample :
    parse_num "9223372036854775809".data = .error "9223372036854775809".data ∧
    parse_num "9223372036854775809".data ≠ .ok (TakeNum i64Min) ∧
    parse_num "9223372036854775809".data ≠ .ok (TakeNum i64Max) := by
  refine ⟨by decide, by decide, by decide⟩

/-- Witness for C3 (amended): the overflow rule applied to the concrete
oversized token `"+9223372036854775809"`. -/
theorem parse_num_overflow_fails_witness :
    matches_num_re "+9223372036854775809".data ∧
    (split_sign "+9223372036854775809".data).1 = '+' ∧
    i64Max < (digits_to_nat (split_sign "+9223372036854775809".data).2 : Int) ∧
    parse_num "+9223372036854775809".data = .error "+9223372036854775809".data :=
  ⟨by decide, by decide, by decide,
    parse_num_overflow_fails "+9223372036854775809".data (by decide)
      (Or.inl ⟨by decide, by decide⟩)⟩

/-- C10: parser boundary asymmetry — because the default `'-'` sign is glued
on before the `i64` conversion, the bare digits of `2^63` and the explicit
`"-9223372036854775808"` are both accepted as `TakeNum (-2^63)`, while
`"+9223372036854775808"` and every grammar-matching token of magnitude
strictly above `2^63` are rejected with the offending token; the largest
accepted `'+'`-prefixed magnitude is `2^63 - 1`. -/
theorem parse_num_boundary_asymmetry :
    parse_num "9223372036854775808".data = .ok (TakeNum (-(2 ^ 63))) ∧
    parse_num "-9223372036854775808".data = .ok (TakeNum (-(2 ^ 63))) ∧
    parse_num "+9223372036854775808".data = .error "+9223372036854775808".data ∧
    parse_num "+9223372036854775807".data = .ok (TakeNum (2 ^ 63 - 1)) ∧
    (∀ val : List Char, matches_num_re val →
      2 ^ 63 < (digits_to_nat (split_sign val).2 : Int) →
      parse_num val = .error val) := by
  refine ⟨by decide, by decide, by decide, by decide, fun val h hm => ?_⟩
  by_cases hs : (split_sign val).1 = '+'
  · rw [parse_num_plus_sign val h hs, if_neg (by omega)]
  · rw [parse_num_default_sign val h hs, if_neg (by omega)]

/-- Witness for C10: the universally quantified rejection rule applied to
the concrete token `"18446744073709551616"` (magnitude `2^64`). -/
theorem parse_num_boundary_asymmetry_witness :
    matches_num_re "18446744073709551616".data ∧
    2 ^ 63 < (digits_to_nat (split_sign "18446744073709551616".data).2 : Int) ∧
    parse_num "18446744073709551616".data = .error "18446744073709551616".data :=
  ⟨by decide, by decide,
    parse_num_boundary_asymmetry.2.2.2.2 "18446744073709551616".data
      (by decide) (by decide)⟩

theorem read_until_len_pos (b : Nat) (rest : List Nat) :
    1 ≤ read_until_len (b :: rest) := by
  simp only [read_until_len]
  split <;> omega

theorem read_until_len_le (bs : List Nat) : read_until_len bs ≤ bs.length := by
  induction bs with
  | nil => simp [read_until_len]
  | cons b rest ih =>
      simp only [read_until_len, List.length_cons]
      split <;> omega

/-- The number of `read_until` chunks of a byte list: its newline count,
plus one for a final unterminated line. One chunking step preserves it. -/
theorem chunk_count_step (bs : List Nat) (hne : bs ≠ []) :
    bs.count 10 + (if bs ≠ [] ∧ bs.getLast? ≠ some 10 then 1 else 0) =
      1 + ((bs.drop (read_until_len bs)).count 10 +
        (if bs.drop (read_until_len bs) ≠ [] ∧
            (bs.drop (read_until_len bs)).getLast? ≠ some 10 then 1 else 0)) := by
  induction bs with
  | nil => exact absurd rfl hne
  | cons b rest ih =>
      by_cases hb : b = 10
      · subst hb
        have hk : read_until_len (10 :: rest) = 1 := by simp [read_until_len]
        rw [hk]
        simp only [List.drop_succ_cons, List.drop_zero]
        cases rest with
        | nil => simp
        | cons r rs =>
            rw [List.getLast?_cons_cons]
            have hc : (10 :: r :: rs).count 10 = (r :: rs).count 10 + 1 := by
              simp [List.count_cons]
            rw [hc]
            by_cases hX : (r :: rs).getLast? = some 10 <;> simp [hX] <;> omega
      · have hk : read_until_len (b :: rest) = 1 + read_until_len rest := by
          simp [read_until_len, hb]
        rw [hk]
        have hd : (b :: rest).drop (1 + read_until_len rest) =
            rest.drop (read_until_len rest) := by
          rw [Nat.add_comm, List.drop_succ_cons]
        rw [hd]
        cases rest with
        | nil =>
            have hb' : (10 : Nat) ≠ b := fun h => hb h.symm
            simp [read_until_len, List.count_cons, hb', List.getLast?, hb]
        | cons r rs =>
            have hrec := ih (by simp)
            rw [List.getLast?_cons_cons]
            have hcount : (b :: r :: rs).count 10 = (r :: rs).count 10 := by
              have hb' : (10 : Nat) ≠ b := fun h => hb h.symm
              simp [List.count_cons, hb']
            rw [hcount]
            have hcond : (b :: r :: rs ≠ [] ∧ (r :: rs).getLast? ≠ some 10) ↔
                (r :: rs ≠ [] ∧ (r :: rs).getLast? ≠ some 10) := by simp
            rw [if_congr hcond rfl rfl]
            exact hrec

theorem count_lines_bytes_loop_lines (fuel : Nat) :
    ∀ bs : List Nat, bs.length ≤ fuel →
      (count_lines_bytes_loop fuel bs).1 =
        bs.count 10 + (if bs ≠ [] ∧ bs.getLast? ≠ some 10 then 1 else 0) := by
  induction fuel with
  | zero =>
      intro bs hlen
      have : bs = [] := List.eq_nil_of_length_eq_zero (by omega)
      subst this
      simp [count_lines_bytes_loop]
  | succ fuel ih =>
      intro bs hlen
      cases bs with
      | nil => simp [count_lines_bytes_loop]
      | cons b rest =>
          have hk1 : 1 ≤ read_until_len (b :: rest) := read_until_len_pos b rest
          have hlen2 : ((b :: rest).drop (read_until_len (b :: rest))).length ≤ fuel := by
            rw [List.length_drop]
            simp only [List.length_cons] at hlen ⊢
            omega
          have hrec := ih _ hlen2
          have hstep := chunk_count_step (b :: rest) (by simp)
          simp only [count_lines_bytes_loop]
          omega

theorem count_lines_bytes_loop_bytes (fuel : Nat) :
    ∀ bs : List Nat, bs.length ≤ fuel →
      (count_lines_bytes_loop fuel bs).2 = bs.length := by
  induction fuel with
  | zero =>
      intro bs hlen
      have : bs = [] := List.eq_nil_of_length_eq_zero (by omega)
      subst this
      simp [count_lines_bytes_loop]
  | succ fuel ih =>
      intro bs hlen
      cases bs with
      | nil => simp [count_lines_bytes_loop]
      | cons b rest =>
          have hk1 : 1 ≤ read_until_len (b :: rest) := read_until_len_pos b rest
          have hkle : read_until_len (b :: rest) ≤ (b :: rest).length :=
            read_until_len_le (b :: rest)
          have hlen2 : ((b :: rest).drop (read_until_len (b :: rest))).length ≤ fuel := by
            rw [List.length_drop]
            simp only [List.length_cons] at hlen ⊢
            omega
          have hrec := ih _ hlen2
          rw [List.length_drop] at hrec
          simp only [count_lines_bytes_loop]
          simp only [List.length_cons] at hkle hrec ⊢
          omega

/-- C7 (amended): `count_lines_bytes` returns `(lines, bytes)` where `bytes`
is the file's total byte length and `lines` is the number of `read_until`
chunks of the forward scan: the count of line-terminator bytes, plus one when
the content is non-empty and its last byte is not a terminator. At the file
level it fails with an I/O error exactly when the file cannot be read (open
failure or mid-scan read failure). -/
theorem count_lines_bytes_spec :
    (∀ content : List Nat,
      (count_lines_bytes content).2 = content.length ∧
      (count_lines_bytes content).1 =
        content.count 10 +
          (if content ≠ [] ∧ content.getLast? ≠ some 10 then 1 else 0)) ∧
    (∀ content : List Nat,
      count_lines_bytes_file (.readable content false) =
        .ok (count_lines_bytes content)) ∧
    (∀ content : List Nat,
      count_lines_bytes_file (.readable content true) = .error ()) ∧
    count_lines_bytes_file .unopenable = .error () := by
  refine ⟨fun content => ⟨?_, ?_⟩, fun content => rfl, fun content => rfl, rfl⟩
  · exact count_lines_bytes_loop_bytes content.length content (le_refl _)
  · exact count_lines_bytes_loop_lines content.length content (le_refl _)

/-- Counterexample to C7 as stated: a one-byte file with no line terminator.
The scan encounters zero terminators, but `count_lines_bytes` reports one
line (the final unterminated line). -/
theorem count_lines_bytes_terminator_counterexample :
    (count_lines_bytes [97]).1 = 1 ∧ ([97] : List Nat).count 10 = 0 ∧
      (count_lines_bytes [97]).1 ≠ ([97] : List Nat).count 10 := by
  refine ⟨by decide, by decide, by decide⟩

theorem utf8_step_pos (b : Nat) (rest : List Nat) : 1 ≤ (utf8_step (b :: rest)).2 := by
  simp only [utf8_step]
  repeat' split
  all_goals decide

theorem valid_lossy_loop (fuel : Nat) :
    ∀ bs : List Nat, bs.length ≤ fuel → valid_utf8_loop fuel bs = true →
      from_utf8_lossy_loop fuel bs = bs := by
  induction fuel with
  | zero =>
      intro bs hlen hv
      have : bs = [] := List.eq_nil_of_length_eq_zero (by omega)
      subst this
      rfl
  | succ fuel ih =>
      intro bs hlen hv
      cases bs with
      | nil => rfl
      | cons b rest =>
          simp only [valid_utf8_loop, Bool.and_eq_true] at hv
          obtain ⟨h1, h2⟩ := hv
          simp only [from_utf8_lossy_loop]
          rw [if_pos h1]
          have hpos : 1 ≤ (utf8_step (b :: rest)).2 := utf8_step_pos b rest
          have hlen2 :
              ((b :: rest).drop ((utf8_step (b :: rest)).2)).length ≤ fuel := by
            rw [List.length_drop]
            simp only [List.length_cons] at hlen ⊢
            omega
          rw [ih _ hlen2 h2, List.take_append_drop]

/-- On valid UTF-8 content, the lossy conversion is the identity on bytes. -/
theorem from_utf8_lossy_of_valid (bs : List Nat) (h : valid_utf8 bs = true) :
    from_utf8_lossy bs = bs :=
  valid_lossy_loop bs.length bs (le_refl _) h

/-- C6 (amended): the ByteEmitter with resolved start index 0 writes
`from_utf8_lossy` of the file's entire byte content; this output is
byte-identical to the source exactly on valid UTF-8 content, while
ill-formed sequences are replaced by U+FFFD at the point of output. -/
theorem print_bytes_start_zero (content : List Nat) (num_bytes : TakeValue)
    (total_bytes : Int) (h : get_start_index num_bytes total_bytes = some 0) :
    print_bytes content num_bytes total_bytes = from_utf8_lossy content ∧
      (valid_utf8 content = true →
        print_bytes content num_bytes total_bytes = content) := by
  have h1 : print_bytes content num_bytes total_bytes = from_utf8_lossy content := by
    simp only [print_bytes, h, List.drop_zero]
    by_cases he : content = []
    · subst he
      rw [if_pos rfl]
      rfl
    · rw [if_neg he]
  exact ⟨h1, fun hv => h1.trans (from_utf8_lossy_of_valid content hv)⟩

/-- Counterexample to C6 as stated: a one-byte file whose byte `0xFF` is not
valid text. With resolved start index 0 the ByteEmitter writes the U+FFFD
replacement encoding `EF BF BD`, not the original byte. -/
theorem print_bytes_start_zero_counterexample :
    get_start_index (TakeNum (-1)) 1 = some 0 ∧
    print_bytes [255] (TakeNum (-1)) 1 = [0xEF, 0xBF, 0xBD] ∧
    print_bytes [255] (TakeNum (-1)) 1 ≠ [255] := by
  refine ⟨by decide, by decide, by decide⟩

/-- Witness for C6 (amended): on the valid-UTF-8 content `[104, 105]` with
`PlusZero` resolving to start 0, the emitter reproduces the content. -/
theorem print_bytes_start_zero_witness :
    get_start_index PlusZero 2 = some 0 ∧ valid_utf8 [104, 105] = true ∧
      print_bytes [104, 105] PlusZero 2 = [104, 105] :=
  ⟨by decide, by decide,
    (print_bytes_start_zero [104, 105] PlusZero 2 (by decide)).2 (by decide)⟩

/-- Whether a modelled file fails at `File::open`. -/
def is_unopenable (f : FsFile) : Bool :=
  match f with
  | .unopenable => true
  | _ => false

/-- Whether a modelled file is free of mid-file read failures (it may still
fail to open). -/
def no_read_err (f : FsFile) : Bool :=
  match f with
  | .readable _ true => false
  | _ => true

theorem run_loop_scans_mode_indep (fs : String → FsFile) (config : Config)
    (b1 b2 : Option TakeValue) (n : Nat) :
    ∀ (files : List String) (k : Nat),
      ((run_loop fs { config with bytes := b1 } n k files).1.scans =
        (run_loop fs { config with bytes := b2 } n k files).1.scans) ∧
      ((run_loop fs { config with bytes := b1 } n k files).1.errs =
        (run_loop fs { config with bytes := b2 } n k files).1.errs) ∧
      ((run_loop fs { config with bytes := b1 } n k files).2 =
        (run_loop fs { config with bytes := b2 } n k files).2) := by
  intro files
  induction files with
  | nil => intro k; exact ⟨rfl, rfl, rfl⟩
  | cons filename rest ih =>
      intro k
      obtain ⟨hs, he, hb⟩ := ih (k + 1)
      simp only [run_loop]
      cases hf : fs filename with
      | unopenable =>
          exact ⟨hs, by simp [he], hb⟩
      | readable content read_err =>
          cases read_err
          · exact ⟨by simp [hs], by simp [he], by simp [hb]⟩
          · exact ⟨rfl, rfl, rfl⟩

/-- C2 (amended): the Counter is not bypassed in byte mode — `run` invokes
`count_lines_bytes` (one forward scan per successfully opened file) for
exactly the same files in byte mode as in line mode, taking the total byte
count from the scan rather than from file size metadata, and the two modes
succeed or abort identically. -/
theorem run_counter_used_in_byte_mode (fs : String → FsFile) (config : Config)
    (num_bytes : TakeValue) :
    ((run fs { config with bytes := some num_bytes }).1.scans =
      (run fs { config with bytes := none }).1.scans) ∧
    ((run fs { config with bytes := some num_bytes }).2 =
      (run fs { config with bytes := none }).2) := by
  have h := run_loop_scans_mode_indep fs config (some num_bytes) none
    config.files.length config.files 0
  exact ⟨h.1, h.2.2⟩

/-- Counterexample to C2 as stated: a single readable file processed in byte
mode. The claim says the Counter is never invoked in byte mode, but the
run's scan trace records the `count_lines_bytes` pass over the file. -/
theorem run_counter_used_in_byte_mode_counterexample :
    (⟨["a"], TakeNum (-10), some (TakeNum (-3)), false⟩ : Config).bytes ≠ none ∧
    (run (fun _ => .readable [104, 105] false)
      ⟨["a"], TakeNum (-10), some (TakeNum (-3)), false⟩).1.scans = ["a"] ∧
    (run (fun _ => .readable [104, 105] false)
      ⟨["a"], TakeNum (-10), some (TakeNum (-3)), false⟩).1.scans ≠ [] := by
  refine ⟨by decide, by decide, by decide⟩

theorem run_loop_read_err_free (fs : String → FsFile) (config : Config) (n : Nat) :
    ∀ (files : List String) (k : Nat),
      (∀ f ∈ files, no_read_err (fs f) = true) →
      (run_loop fs config n k files).2 = true ∧
      (run_loop fs config n k files).1.errs =
        files.filter (fun f => is_unopenable (fs f)) ∧
      (run_loop fs config n k files).1.scans =
        files.filter (fun f => !is_unopenable (fs f)) := by
  intro files
  induction files with
  | nil => intro k h; exact ⟨rfl, rfl, rfl⟩
  | cons filename rest ih =>
      intro k h
      have hhd := h filename (List.mem_cons_self _ _)
      have htl : ∀ f ∈ rest, no_read_err (fs f) = true :=
        fun f hf => h f (List.mem_cons_of_mem _ hf)
      obtain ⟨hflag, herrs, hscans⟩ := ih (k + 1) htl
      simp only [run_loop]
      cases hf : fs filename with
      | unopenable =>
          have hu : is_unopenable (fs filename) = true := by rw [hf]; rfl
          exact ⟨hflag, by simp [List.filter_cons, hu, herrs],
            by simp [List.filter_cons, hu, hscans]⟩
      | readable content read_err =>
          rw [hf] at hhd
          cases read_err
          · have hu : is_unopenable (fs filename) = false := by rw [hf]; rfl
            exact ⟨by simp [hflag], by simp [List.filter_cons, hu, herrs],
              by simp [List.filter_cons, hu, hscans]⟩
          · simp [no_read_err] at hhd

/-- C4 (amended): only a failure to open a file is caught and reported to
the diagnostic channel, with every remaining file still attempted: when no
file suffers a mid-file read failure, `run` completes, its diagnostics are
exactly the unopenable files, and every openable file is processed. A read
or seek failure after a successful open, however, propagates out of `run`
and aborts the entire run, skipping all remaining files. -/
theorem run_open_errors_nonfatal (fs : String → FsFile) (config : Config)
    (h : ∀ f ∈ config.files, no_read_err (fs f) = true) :
    (run fs config).2 = true ∧
    (run fs config).1.errs =
      config.files.filter (fun f => is_unopenable (fs f)) ∧
    (run fs config).1.scans =
      config.files.filter (fun f => !is_unopenable (fs f)) :=
  run_loop_read_err_free fs config config.files.length config.files 0 h

/-- Counterexample to C4 as stated: file "a" opens but its reads fail
mid-file; file "b" is fine. The claim says only "a" is abandoned and "b" is
still attempted, but the run aborts with the propagated error and "b" is
never processed. -/
theorem run_mid_file_error_aborts_counterexample :
    (run (fun f => if f = "a" then FsFile.readable [104] true
        else FsFile.readable [104] false)
      ⟨["a", "b"], TakeNum (-10), none, false⟩).2 = false ∧
    (run (fun f => if f = "a" then FsFile.readable [104] true
        else FsFile.readable [104] false)
      ⟨["a", "b"], TakeNum (-10), none, false⟩).1.scans = ["a"] ∧
    "b" ∉ (run (fun f => if f = "a" then FsFile.readable [104] true
        else FsFile.readable [104] false)
      ⟨["a", "b"], TakeNum (-10), none, false⟩).1.scans := by
  refine ⟨by decide, by decide, by decide⟩

/-- Witness for C4 (amended): with "a" unopenable and "b" readable, the run
completes, reports exactly "a", and still processes "b". -/
theorem run_open_errors_nonfatal_witness :
    (∀ f ∈ ["a", "b"],
      no_read_err ((fun g => if g = "a" then FsFile.unopenable
        else FsFile.readable [104, 10] false) f) = true) ∧
    (run (fun g => if g = "a" then FsFile.unopenable
        else FsFile.readable [104, 10] false)
      ⟨["a", "b"], TakeNum (-10), none, false⟩).2 = true ∧
    (run (fun g => if g = "a" then FsFile.unopenable
        else FsFile.readable [104, 10] false)
      ⟨["a", "b"], TakeNum (-10), none, false⟩).1.errs =
      (["a", "b"].filter (fun f => is_unopenable
        ((fun g => if g = "a" then FsFile.unopenable
          else FsFile.readable [104, 10] false) f))) ∧
    (run (fun g => if g = "a" then FsFile.unopenable
        else FsFile.readable [104, 10] false)
      ⟨["a", "b"], TakeNum (-10), none, false⟩).1.scans =
      (["a", "b"].filter (fun f => !is_unopenable
        ((fun g => if g = "a" then FsFile.unopenable
          else FsFile.readable [104, 10] false) f))) :=
  ⟨by decide,
    run_open_errors_nonfatal
      (fun g => if g = "a" then FsFile.unopenable
        else FsFile.readable [104, 10] false)
      ⟨["a", "b"], TakeNum (-10), none, false⟩ (by decide)⟩

end Tailr
